import Mathlib

/-!
Shallow embedding of the bartseq read-tagger core
(`src/bartseq/read_tagger/__init__.py`).

Nucleotide sequences are modelled as `List Char`; Python dicts are modelled
as insertion-ordered association lists with the exact dict semantics
(lookup of the first matching key, in-place value overwrite keeping the
position of the key, append of fresh keys at the end, deletion of a key).
Python generators that may raise mid-iteration are modelled by a record
holding the prefix of yielded elements plus a `raised` flag; functions
whose body may raise (`KeyError`) return `Except String`.
-/

namespace BartSeq

/-- Nucleotide strings (`str` holding bases) are lists of characters. -/
abbrev BSeq := List Char

/-- Model of BASES, the four-symbol nucleotide alphabet (a Python set,
iterated in some fixed order). -/
def BASES : List Char := ['A', 'T', 'G', 'C']

/-! ### Python dict as an insertion-ordered association list -/

section Dict

variable {α : Type} {β : Type} [DecidableEq α]

/-- Python dict lookup `d.get(k)`: value of the entry with key `k`, if any. -/
def dget : List (α × β) → α → Option β
  | [], _ => none
  | p :: d, k => if p.1 = k then some p.2 else dget d k

/-- Python dict assignment: overwrite the value in place if the key is present
(keeping its position), otherwise append the new entry at the end. -/
def dset : List (α × β) → α → β → List (α × β)
  | [], k, v => [(k, v)]
  | p :: d, k, v => if p.1 = k then (k, v) :: d else p :: dset d k v

/-- Python dict deletion: remove the entry with key `k`. -/
def ddel : List (α × β) → α → List (α × β)
  | [], _ => []
  | p :: d, k => if p.1 = k then ddel d k else p :: ddel d k

/-- Python dict keys in insertion order. -/
def dkeys (d : List (α × β)) : List α := d.map (·.1)

theorem dget_mem {d : List (α × β)} {k : α} {v : β} (h : dget d k = some v) :
    (k, v) ∈ d := by
  induction d with
  | nil => simp [dget] at h
  | cons p d ih =>
    rw [dget] at h
    split at h
    · rename_i hk
      obtain ⟨rfl⟩ := h
      simp_all [Prod.ext_iff]
    · exact List.mem_cons_of_mem _ (ih h)

theorem dget_isSome_of_mem_keys {d : List (α × β)} {k : α} (h : k ∈ dkeys d) :
    (dget d k).isSome := by
  induction d with
  | nil => simp [dkeys] at h
  | cons p d ih =>
    rw [dget]
    split
    · rfl
    · rename_i hk
      rcases (List.mem_cons.mp h) with h' | h'
      · exact absurd h'.symm hk
      · exact ih h'

theorem mem_dset {d : List (α × β)} {k : α} {v : β} {pv : α × β}
    (h : pv ∈ dset d k v) : pv ∈ d ∨ pv = (k, v) := by
  induction d with
  | nil => simp [dset] at h; simp [h]
  | cons p d ih =>
    rw [dset] at h
    split at h
    · rcases List.mem_cons.mp h with h' | h'
      · exact Or.inr h'
      · exact Or.inl (List.mem_cons_of_mem _ h')
    · rcases List.mem_cons.mp h with h' | h'
      · exact Or.inl (h' ▸ List.mem_cons_self _ _)
      · rcases ih h' with h'' | h''
        · exact Or.inl (List.mem_cons_of_mem _ h'')
        · exact Or.inr h''

theorem mem_ddel {d : List (α × β)} {k : α} {pv : α × β}
    (h : pv ∈ ddel d k) : pv ∈ d := by
  induction d with
  | nil => simp [ddel] at h
  | cons p d ih =>
    rw [ddel] at h
    split at h
    · exact List.mem_cons_of_mem _ (ih h)
    · rcases List.mem_cons.mp h with h' | h'
      · exact h' ▸ List.mem_cons_self _ _
      · exact List.mem_cons_of_mem _ (ih h')

theorem not_mem_keys_ddel {d : List (α × β)} {k : α} :
    k ∉ dkeys (ddel d k) := by
  induction d with
  | nil => simp [ddel, dkeys]
  | cons p d ih =>
    rw [ddel]
    split
    · exact ih
    · rename_i hk
      simp only [dkeys, List.map_cons, List.mem_cons]
      rintro (h | h)
      · exact hk h.symm
      · exact ih h

theorem keys_ddel_subset {d : List (α × β)} {k' : α} {k : α}
    (h : k ∈ dkeys (ddel d k')) : k ∈ dkeys d := by
  simp only [dkeys, List.mem_map] at h ⊢
  obtain ⟨pv, hm, hk⟩ := h
  exact ⟨pv, mem_ddel hm, hk⟩

end Dict

/-! ### `get_mismatches`: mismatch expansion (a generator that may raise) -/

/-- The f-string built from the prefix before position `i`, the
substituted character, and the suffix after position `i`. -/
def substituteAt (bc : BSeq) (i : Nat) (c : Char) : BSeq :=
  bc.take i ++ c :: bc.drop (i + 1)

/-- The inner double loop of `get_mismatches` for `max_mm == 1`:
for each position `i`, for each base of BASES other than the one at `i`,
the single-substitution variant at `i`. -/
def mismatchVariants (bc : BSeq) : List BSeq :=
  (List.range bc.length).flatMap fun i =>
    (BASES.filter fun c => c ≠ bc.getD i 'A').map (substituteAt bc i)

/-- Result of running a Python generator to exhaustion: the elements it
yielded, and whether it terminated by raising instead of returning. -/
structure GenRun where
  yielded : List BSeq
  raised : Bool
  deriving DecidableEq

/-- Model of `get_mismatches`, fully iterated: it yields the
barcode itself, then raises (`raise NotImplemented`) unless `max_mm == 1`,
in which case it yields every single-substitution variant. -/
def get_mismatches (bc : BSeq) (max_mm : Nat) : GenRun :=
  if max_mm ≠ 1 then ⟨[bc], true⟩
  else ⟨bc :: mismatchVariants bc, false⟩

/-! ### `get_all_barcodes`: pattern map and blacklist construction -/

/-- Python truthiness filter for `found.get(pattern)`:
`None` and the empty string are falsy. -/
def truthySeq : Option BSeq → Option BSeq
  | none => none
  | some s => if s = [] then none else some s

/-- Python set insertion on a set modelled as a duplicate-free list
(insertion order). -/
def addPair (l : List (BSeq × BSeq)) (p : BSeq × BSeq) : List (BSeq × BSeq) :=
  if p ∈ l then l else l ++ [p]

/-- Mutable state of `get_all_barcodes`: the `found` dict, the `blacklist`
dict, and the warnings emitted so far (pattern, previous barcode, barcode). -/
structure BCState where
  found : List (BSeq × BSeq)
  blacklist : List (BSeq × List (BSeq × BSeq))
  warnings : List (BSeq × BSeq × BSeq)
  deriving DecidableEq

/-- Loop body of `get_all_barcodes` for one `pattern` of one `barcode`:
if the pattern is already claimed (truthy previous barcode), record both
orientations of the colliding pair in the blacklist and warn; in any case
(re)claim the pattern for the current barcode. -/
def processPattern (bc : BSeq) (st : BCState) (pattern : BSeq) : BCState :=
  match truthySeq (dget st.found pattern) with
  | some prev =>
      let item := (dget st.blacklist pattern).getD []
      let item := addPair item (prev, bc)
      let item := addPair item (bc, prev)
      { found := dset st.found pattern bc
        blacklist := dset st.blacklist pattern item
        warnings := st.warnings ++ [(pattern, prev, bc)] }
  | none => { st with found := dset st.found pattern bc }

/-- Outer loop of `get_all_barcodes`: process each barcode's generated
patterns; a raise from `get_mismatches` aborts the loop (`true` flag). -/
def gabLoop (mm : Nat) : List BSeq → BCState → BCState × Bool
  | [], st => (st, false)
  | bc :: rest, st =>
    if (get_mismatches bc mm).raised then
      ((get_mismatches bc mm).yielded.foldl (processPattern bc) st, true)
    else gabLoop mm rest ((get_mismatches bc mm).yielded.foldl (processPattern bc) st)

/-- Result of `get_all_barcodes`: the final pattern map (blacklisted
patterns deleted), the blacklist, the warnings, and whether the whole
call raised (in which case nothing was returned in the original). -/
structure GabResult where
  found : List (BSeq × BSeq)
  blacklist : List (BSeq × List (BSeq × BSeq))
  warnings : List (BSeq × BSeq × BSeq)
  raised : Bool
  deriving DecidableEq

/-- Model of `get_all_barcodes`: build `found` and `blacklist`
over all barcodes, then delete every blacklisted pattern from `found`. -/
def get_all_barcodes (bcs : List BSeq) (mm : Nat) : GabResult :=
  match gabLoop mm bcs ⟨[], [], []⟩ with
  | (st, true) => ⟨st.found, st.blacklist, st.warnings, true⟩
  | (st, false) =>
      ⟨st.blacklist.foldl (fun f kv => ddel f kv.1) st.found,
       st.blacklist, st.warnings, false⟩

/-! ### `TaggedRead` and the classification predicates -/

/-- Python truthiness of an optional string (identifier):
none and the empty string are falsy. -/
def truthyStr : Option String → Bool
  | none => false
  | some s => !(s == "")

/-- Python truthiness of an optional sequence: none and the empty
sequence are falsy. -/
def truthyOptSeq : Option BSeq → Bool
  | none => false
  | some s => !(s.isEmpty)

/-- The `TaggedRead` named tuple. -/
structure TaggedRead where
  header : String
  qual : BSeq
  len_primer : Nat
  junk : Option BSeq
  barcode : Option String
  linker : Option BSeq
  amplicon : BSeq
  other_barcodes : List String
  barcode_mismatch : Bool
  deriving DecidableEq

/-- Whether the set of other barcodes is non-empty. -/
def TaggedRead.has_multiple_barcodes (r : TaggedRead) : Bool :=
  decide (0 < r.other_barcodes.length)

/-- Whether a barcode was found (`barcode is not None`) and the amplicon
is no longer than the primer. -/
def TaggedRead.is_just_primer (r : TaggedRead) : Bool :=
  r.barcode.isSome && decide (r.amplicon.length ≤ r.len_primer)

/-- Whether the barcode is truthy and the read is not just-primer
(Python truthiness). -/
def TaggedRead.is_regular (r : TaggedRead) : Bool :=
  truthyStr r.barcode && !(r.is_just_primer)

/-- The `PREDS` table: statistics name to classification predicate,
in the source's iteration order. -/
def PREDS : List (String × (TaggedRead → Bool)) :=
  [("n_only_primer", fun r => r.is_just_primer),
   ("n_multiple_bcs", fun r => r.has_multiple_barcodes),
   ("n_no_barcode", fun r => !(truthyStr r.barcode)),
   ("n_barcode_mismatch", fun r => r.barcode_mismatch),
   ("n_junk", fun r => truthyOptSeq r.junk),
   ("n_regular", fun r => r.is_regular)]

/-- The statistics dict initialised by the `ReadTagger` constructor
(its insertion order). -/
def initStats : List (String × Nat) :=
  [("n_only_primer", 0), ("n_multiple_bcs", 0), ("n_no_barcode", 0),
   ("n_regular", 0), ("n_barcode_mismatch", 0), ("n_junk", 0)]

/-- Increment of one statistics counter; raises KeyError when the name
is absent from the dict. -/
def incrStat (st : List (String × Nat)) (name : String) :
    Except String (List (String × Nat)) :=
  match dget st name with
  | none => .error "KeyError"
  | some v => .ok (dset st name (v + 1))

/-- The statistics-update loop at the end of `tag_read`. -/
def updateStats (st : List (String × Nat)) (r : TaggedRead) :
    Except String (List (String × Nat)) :=
  PREDS.foldl (fun est np => est.bind fun s =>
    if np.2 r then incrStat s np.1 else .ok s) (.ok st)

/-! ### `ReadTagger`: automaton scan and read tagging -/

/-- Python slice of `s` from `a` up to `b` (with clamping), for
non-negative bounds. -/
def extractL (s : BSeq) (a b : Nat) : BSeq := (s.take b).drop a

/-- Whether the (non-empty) pattern occurs in `read` ending at index `e`
inclusive, i.e. `read[e+1-len(p) : e+1] == p`.  Aho-Corasick automata
never hold the empty word, hence the non-emptiness guard. -/
def matchEndsAt (read pattern : BSeq) (e : Nat) : Bool :=
  !(pattern.isEmpty) && decide (pattern.length ≤ e + 1) &&
    (extractL read (e + 1 - pattern.length) (e + 1) == pattern)

/-- Model of the Aho-Corasick automaton scan over the stored
`(pattern, value)` words:
for each end position in scan order, each word ending there, as
`(end_index, value)` pairs. -/
def automatonIter (pats : List (BSeq × BSeq)) (read : BSeq) :
    List (Nat × BSeq) :=
  (List.range read.length).flatMap fun e =>
    ((pats.filter fun pv => matchEndsAt read pv.1 e).map fun pv => (e, pv.2))

/-- Model of `search_barcode`: convert automaton hits `(end, barcode)` into
`(start, end+1, barcode)` with `start = end - len(barcode) + 1`. -/
def searchBarcodePats (pats : List (BSeq × BSeq)) (read : BSeq) :
    List (Nat × Nat × BSeq) :=
  (automatonIter pats read).map fun ev => (ev.1 + 1 - ev.2.length, ev.1 + 1, ev.2)

/-- Model of the OrderedDict-based dedup: deduplicate keeping the
first occurrence, preserving order. -/
def ordNub {α : Type} [DecidableEq α] (l : List α) : List α :=
  l.foldl (fun acc m => if m ∈ acc then acc else acc ++ [m]) []

/-- A constructed `ReadTagger`: its configuration, the stored automaton
`(pattern, barcode)` words, the blacklist, the collision warnings and
whether construction raised (`max_mm != 1` reaching `get_mismatches`). -/
structure ReadTagger where
  bc_to_id : List (BSeq × String)
  len_linker : Nat
  len_primer : Nat
  patterns : List (BSeq × BSeq)
  blacklist : List (BSeq × List (BSeq × BSeq))
  warnings : List (BSeq × BSeq × BSeq)
  raised : Bool
  deriving DecidableEq

/-- Constructor of `ReadTagger`: run `get_all_barcodes` over the keys of
the dict and
store each surviving pattern with its barcode in the automaton. -/
def mkReadTagger (bc_to_id : List (BSeq × String)) (len_linker len_primer mm : Nat) :
    ReadTagger :=
  let g := get_all_barcodes (dkeys bc_to_id) mm
  ⟨bc_to_id, len_linker, len_primer, g.found, g.blacklist, g.warnings, g.raised⟩

/-- The search method of a constructed tagger. -/
def ReadTagger.search_barcode (t : ReadTagger) (read : BSeq) :
    List (Nat × Nat × BSeq) :=
  searchBarcodePats t.patterns read

/-- Identifier lookup over the remaining matches (may raise KeyError). -/
def lookupIds (d : List (BSeq × String)) : List (Nat × Nat × BSeq) →
    Except String (List String)
  | [] => .ok []
  | m :: rest => match dget d m.2.2 with
    | none => .error "KeyError"
    | some i => (lookupIds d rest).map fun is => i :: is

/-- The barcode-found branch of `tag_read`, for primary match
`(bc_start, bc_end, barcode)` followed by the remaining matches. -/
def tagWithMatch (t : ReadTagger) (header : String) (seq_read seq_qual : BSeq)
    (bc_start bc_end : Nat) (barcode : BSeq) (rest : List (Nat × Nat × BSeq)) :
    Except String TaggedRead :=
  (lookupIds t.bc_to_id rest).bind fun ids =>
    let bc_id := dget t.bc_to_id barcode
    let other := ordNub (ids.filter fun i => !(some i == bc_id))
    let linker_end : Option Nat :=
      if bc_end = 0 then none else some (bc_end + t.len_linker)
    let junk :=
      if seq_read.take bc_start = [] then none else some (seq_read.take bc_start)
    let linker := match linker_end with
      | some le => extractL seq_read bc_end le
      | none => seq_read.drop bc_end
    let amplicon := match linker_end with
      | some le => seq_read.drop le
      | none => seq_read
    let mismatch := decide (extractL seq_read bc_start bc_end ≠ barcode)
    .ok ⟨header, seq_qual, t.len_primer, junk, bc_id, some linker,
         amplicon, other, mismatch⟩

/-- Model of `tag_read`.  The first deduplicated match
is primary; `junk`/`linker`/`amplicon` are slices of the read around it;
with no match the whole read is the amplicon. -/
def tag_read (t : ReadTagger) (header : String) (seq_read seq_qual : BSeq) :
    Except String TaggedRead :=
  match ordNub (t.search_barcode seq_read) with
  | [] =>
      .ok ⟨header, seq_qual, t.len_primer, none, none, none, seq_read, [], false⟩
  | (bc_start, bc_end, barcode) :: rest =>
      tagWithMatch t header seq_read seq_qual bc_start bc_end barcode rest

/-- Combination of `tag_read` with its statistics side effect (statistics
enabled), with the statistics dict passed explicitly. -/
def tagReadWithStats (t : ReadTagger) (st : List (String × Nat))
    (header : String) (s q : BSeq) :
    Except String (TaggedRead × List (String × Nat)) :=
  (tag_read t header s q).bind fun r =>
    (updateStats st r).map fun st' => (r, st')

/-- A finite sequence of `tag_read` calls threading the statistics dict. -/
def runReads (t : ReadTagger) : List (String × BSeq × BSeq) →
    List (String × Nat) → Except String (List (String × Nat))
  | [], st => .ok st
  | (h, s, q) :: rest, st =>
      (tagReadWithStats t st h s q).bind fun rs => runReads t rest rs.2

/-- Model of `get_tagger`: build `bc_to_id` by the dict
comprehension `{bc: id_ for id_, bc in id_to_bc}` and construct the
tagger with the default mismatch budget 1. -/
def get_tagger (id_to_bc : List (String × BSeq)) (len_linker len_primer : Nat) :
    ReadTagger :=
  mkReadTagger (id_to_bc.foldl (fun d ib => dset d ib.2 ib.1) [])
    len_linker len_primer 1

/-- Shorthand: `String` to `BSeq`. -/
def toSeq (s : String) : BSeq := s.toList

/-- The three counters of interest for the statistics bookkeeping claim. -/
def statSum (st : List (String × Nat)) : Nat :=
  (dget st "n_no_barcode").getD 0 + (dget st "n_only_primer").getD 0 +
    (dget st "n_regular").getD 0

/-! ### Concrete inputs used by the scenario claims -/

/-- Tagger of Scenario 3: single barcode `AAAA` with identifier `BC1`,
linker length 2, primer length 4. -/
def c1tagger : ReadTagger := get_tagger [("BC1", toSeq "AAAA")] 2 4

/-- The Scenario 3 read. -/
def c1read : BSeq := toSeq "GGAAAACCGGTT"

/-- A quality string for the Scenario 3 read. -/
def c1qual : BSeq := toSeq "IIIIIIIIIIII"

/-- What `tag_read` actually produces on the Scenario 3 read: the
one-mismatch variant `GAAA` ends earlier than the exact occurrence, so the
primary match is `[1,5)`. -/
def c1res : TaggedRead :=
  ⟨"r1", c1qual, 4, some (toSeq "G"), some "BC1", some (toSeq "AC"),
   toSeq "CGGTT", [], true⟩

/-- A read that is exactly the barcode: everything after the match and
linker window is empty. -/
def c4read : BSeq := toSeq "AAAA"

/-- Quality string for `c4read`. -/
def c4qual : BSeq := toSeq "IIII"

/-- Two identifiers sharing one barcode sequence: the dict comprehension
in `get_tagger` collapses them before any collision check can run. -/
def c3tagger : ReadTagger :=
  get_tagger [("BC1", toSeq "AAAA"), ("BC2", toSeq "AAAA")] 2 4

/-- A tagger whose sole identifier is the empty string, which is falsy in
the classification predicates. -/
def c10tagger : ReadTagger := get_tagger [("", toSeq "AAAA")] 2 4

/-- One read that is tagged with the empty-string identifier and has an
amplicon no longer than the primer. -/
def c10reads : List (String × BSeq × BSeq) := [("r", toSeq "AAAA", toSeq "IIII")]

/-! ### C1 -/

/-- C1, counterexample: on read `GGAAAACCGGTT` with barcode `AAAA`
(linker 2, primer 4) the primary match is not at span `[2,6)`, and the
produced junk/linker/amplicon/mismatch-flag are not
`GG`/`CC`/`GGTT`/`False` as the claim states. -/
theorem C1_counterexample :
    (ordNub (c1tagger.search_barcode c1read)).head? ≠ some (2, 6, toSeq "AAAA") ∧
    (tag_read c1tagger "r1" c1read c1qual).toOption.map
        (fun r => (r.junk, r.linker, r.amplicon, r.barcode_mismatch)) ≠
      some (some (toSeq "GG"), some (toSeq "CC"), toSeq "GGTT", false) := by
  exact ⟨by decide, by decide⟩

/-- C1, amended: the automaton also holds the one-mismatch variants of
`AAAA`, and variant `GAAA` ends at index 4, before the exact occurrence
ends at index 5; the first (leftmost-ending) match wins, so the primary
match has span `[1,5)` and tagging yields junk `G`, identifier `BC1`,
linker `AC`, amplicon `CGGTT` and mismatch flag `True`. -/
theorem C1_theorem :
    (ordNub (c1tagger.search_barcode c1read)).head? = some (1, 5, toSeq "AAAA") ∧
    tag_read c1tagger "r1" c1read c1qual = .ok c1res :=
  ⟨rfl, rfl⟩

/-! ### C2 -/

/-- C2: `get_mismatches` raises for every budget other than 1, including
budget 0 (after yielding the barcode itself); the claim and the spec say a
budget of 0 must succeed and produce only the barcode, and the dead
`if max_mm == 1` guard after the raise shows the raise was meant for
budgets above 1, so the code is the slip. -/
theorem C2_eval :
    (get_mismatches (toSeq "AAAA") 0).raised = true ∧
    (get_mismatches (toSeq "AAAA") 0).yielded = [toSeq "AAAA"] ∧
    (get_mismatches (toSeq "AAAA") 1).raised = false ∧
    (get_mismatches (toSeq "AAAA") 2).raised = true :=
  ⟨rfl, rfl, rfl, rfl⟩

/-! ### C3 -/

/-- C3: supplying the same sequence `AAAA` under identifiers `BC1` and
`BC2` is not detected: the dict comprehension in `get_tagger` keeps only
the last identifier per sequence, so construction sees the sequence once;
the blacklist stays empty and no collision warning is emitted, against the
demand of the spec that this be caught as a zero-mismatch collision. -/
theorem C3_eval :
    c3tagger.bc_to_id = [(toSeq "AAAA", "BC2")] ∧
    c3tagger.blacklist = [] ∧ c3tagger.warnings = [] :=
  ⟨rfl, rfl, rfl⟩

/-! ### C4, counterexample -/

/-- C4, counterexample: tagging the read `AAAA` (the barcode itself) finds
the barcode but leaves an empty amplicon, so the amplicon field is not
always non-empty. -/
theorem C4_counterexample :
    (tag_read c1tagger "r" c4read c4qual).toOption.map
      (fun r => (r.barcode, r.amplicon)) = some (some "BC1", []) :=
  rfl

/-! ### C10, counterexample -/

/-- C10, counterexample: with the empty-string identifier (falsy in
Python), the single read `AAAA` is counted both as `n_no_barcode` and as
`n_only_primer`, so the three counters sum to 2 after 1 read. -/
theorem C10_counterexample :
    (runReads c10tagger c10reads initStats).map statSum ≠
      .ok c10reads.length ∧
    (runReads c10tagger c10reads initStats).map statSum = .ok 2 := by
  refine ⟨fun h => ?_, rfl⟩
  rw [show (runReads c10tagger c10reads initStats).map statSum = .ok 2 from rfl] at h
  exact absurd (Except.ok.inj h) (by decide)

/-! ### C7: shape of the mismatch expansion -/

theorem substituteAt_length {bc : BSeq} {i : Nat} (c : Char) (hi : i < bc.length) :
    (substituteAt bc i c).length = bc.length := by
  simp only [substituteAt, List.length_append, List.length_cons,
    List.length_take, List.length_drop]
  omega

theorem filter_ne_base_length {c : Char} (hc : c ∈ BASES) :
    (BASES.filter fun x => x ≠ c).length = 3 := by
  have h : c = 'A' ∨ c = 'T' ∨ c = 'G' ∨ c = 'C' := by simpa [BASES] using hc
  rcases h with rfl | rfl | rfl | rfl <;> decide

theorem mismatchVariants_length {bc : BSeq} (halpha : ∀ c ∈ bc, c ∈ BASES) :
    (mismatchVariants bc).length = 3 * bc.length := by
  unfold mismatchVariants
  rw [List.length_flatMap]
  have h : ∀ i ∈ List.range bc.length,
      (List.length ∘ fun i =>
        (BASES.filter fun c => c ≠ bc.getD i 'A').map (substituteAt bc i)) i = 3 := by
    intro i hi
    have hi' : i < bc.length := List.mem_range.mp hi
    have hmem : bc.getD i 'A' ∈ BASES := by
      rw [List.getD_eq_getElem bc 'A' hi']
      exact halpha _ (List.getElem_mem hi')
    simp only [Function.comp_apply, List.length_map]
    exact filter_ne_base_length hmem
  rw [List.map_congr_left h]
  have h3 : List.map (fun _ => 3) (List.range bc.length) =
      List.replicate bc.length 3 := by
    simp [List.map_const']
  rw [h3, List.sum_replicate, smul_eq_mul, Nat.mul_comm]

theorem mem_mismatchVariants_length {bc s : BSeq}
    (hs : s ∈ mismatchVariants bc) : s.length = bc.length := by
  unfold mismatchVariants at hs
  obtain ⟨i, hi, hs⟩ := List.mem_flatMap.mp hs
  obtain ⟨c, _, rfl⟩ := List.mem_map.mp hs
  exact substituteAt_length c (List.mem_range.mp hi)

/-- C7: for a non-empty barcode over the nucleotide alphabet, fully
iterating `get_mismatches` with budget 1 yields exactly `1 + 3·L` strings,
all of length `L`, the first of which is the barcode itself, without
raising. -/
theorem C7_theorem (bc : BSeq) (hne : bc ≠ []) (halpha : ∀ c ∈ bc, c ∈ BASES) :
    (get_mismatches bc 1).yielded.length = 1 + 3 * bc.length ∧
    (∀ s ∈ (get_mismatches bc 1).yielded, s.length = bc.length) ∧
    (get_mismatches bc 1).yielded.head? = some bc ∧
    (get_mismatches bc 1).raised = false := by
  have hg : get_mismatches bc 1 = ⟨bc :: mismatchVariants bc, false⟩ := by
    simp [get_mismatches]
  refine ⟨?_, ?_, ?_, ?_⟩
  · rw [hg]
    simp [mismatchVariants_length halpha, Nat.add_comm]
  · intro s hs
    rw [hg] at hs
    rcases List.mem_cons.mp hs with rfl | hs
    · rfl
    · exact mem_mismatchVariants_length hs
  · rw [hg]
    rfl
  · rw [hg]

/-- C7, witness at the barcode `AC`. -/
theorem C7_witness :
    (toSeq "AC" ≠ ([] : BSeq)) ∧ (∀ c ∈ toSeq "AC", c ∈ BASES) ∧
    ((get_mismatches (toSeq "AC") 1).yielded.length = 1 + 3 * (toSeq "AC").length ∧
     (∀ s ∈ (get_mismatches (toSeq "AC") 1).yielded,
        s.length = (toSeq "AC").length) ∧
     (get_mismatches (toSeq "AC") 1).yielded.head? = some (toSeq "AC") ∧
     (get_mismatches (toSeq "AC") 1).raised = false) :=
  ⟨by decide, by decide, C7_theorem (toSeq "AC") (by decide) (by decide)⟩

/-! ### Invariants of the barcode index -/

theorem processPattern_found (bc : BSeq) (st : BCState) (pattern : BSeq) :
    (processPattern bc st pattern).found = dset st.found pattern bc := by
  unfold processPattern
  split <;> rfl

theorem mem_found_foldl {pats : List BSeq} {bc : BSeq} {st : BCState}
    {pv : BSeq × BSeq} (h : pv ∈ (pats.foldl (processPattern bc) st).found) :
    pv ∈ st.found ∨ ∃ p ∈ pats, pv = (p, bc) := by
  induction pats generalizing st with
  | nil => exact Or.inl h
  | cons p ps ih =>
    rw [List.foldl_cons] at h
    rcases ih h with h' | ⟨p', hp', rfl⟩
    · rw [processPattern_found] at h'
      rcases mem_dset h' with h'' | h''
      · exact Or.inl h''
      · exact Or.inr ⟨p, List.mem_cons_self _ _, h''⟩
    · exact Or.inr ⟨p', List.mem_cons_of_mem _ hp', rfl⟩

theorem mem_found_gabLoop {mm : Nat} {bcs : List BSeq} {st : BCState}
    {pv : BSeq × BSeq} (h : pv ∈ (gabLoop mm bcs st).1.found) :
    pv ∈ st.found ∨
      ∃ bc ∈ bcs, ∃ p ∈ (get_mismatches bc mm).yielded, pv = (p, bc) := by
  induction bcs generalizing st with
  | nil => exact Or.inl h
  | cons bc rest ih =>
    rw [gabLoop] at h
    split at h
    · rcases mem_found_foldl h with h' | ⟨p, hp, rfl⟩
      · exact Or.inl h'
      · exact Or.inr ⟨bc, List.mem_cons_self _ _, p, hp, rfl⟩
    · rcases ih h with h' | ⟨bc', hbc', hrest⟩
      · rcases mem_found_foldl h' with h'' | ⟨p, hp, rfl⟩
        · exact Or.inl h''
        · exact Or.inr ⟨bc, List.mem_cons_self _ _, p, hp, rfl⟩
      · exact Or.inr ⟨bc', List.mem_cons_of_mem _ hbc', hrest⟩

theorem mem_foldl_ddel {α β γ : Type} [DecidableEq α] {bl : List (α × γ)}
    {d : List (α × β)} {pv : α × β}
    (h : pv ∈ bl.foldl (fun f kv => ddel f kv.1) d) : pv ∈ d := by
  induction bl generalizing d with
  | nil => exact h
  | cons kv rest ih => exact mem_ddel (ih h)

theorem mem_yielded_length {bc p : BSeq} {mm : Nat}
    (h : p ∈ (get_mismatches bc mm).yielded) : p.length = bc.length := by
  unfold get_mismatches at h
  split at h
  · simp only [List.mem_singleton] at h
    rw [h]
  · rcases List.mem_cons.mp h with rfl | h'
    · rfl
    · exact mem_mismatchVariants_length h'

/-- Every entry of the final pattern map pairs a pattern with one of the
input barcodes, of the same length. -/
theorem mem_found_spec {bcs : List BSeq} {mm : Nat} {pv : BSeq × BSeq}
    (h : pv ∈ (get_all_barcodes bcs mm).found) :
    pv.2 ∈ bcs ∧ pv.1.length = pv.2.length := by
  unfold get_all_barcodes at h
  rcases hgl : gabLoop mm bcs ⟨[], [], []⟩ with ⟨st, b⟩
  rw [hgl] at h
  have hmem : pv ∈ st.found := by
    cases b
    · exact mem_foldl_ddel h
    · exact h
  have h2 := mem_found_gabLoop
    (show pv ∈ (gabLoop mm bcs ⟨[], [], []⟩).1.found by rw [hgl]; exact hmem)
  rcases h2 with h' | ⟨bc, hbc, p, hp, rfl⟩
  · simp at h'
  · exact ⟨hbc, mem_yielded_length hp⟩

theorem gabLoop_one_not_raised (bcs : List BSeq) (st : BCState) :
    (gabLoop 1 bcs st).2 = false := by
  induction bcs generalizing st with
  | nil => rfl
  | cons bc rest ih =>
    rw [gabLoop]
    have : (get_mismatches bc 1).raised = false := by simp [get_mismatches]
    rw [this]
    simpa using ih _

/-- With the default budget 1, `get_all_barcodes` never raises. -/
theorem get_all_barcodes_one_not_raised (bcs : List BSeq) :
    (get_all_barcodes bcs 1).raised = false := by
  unfold get_all_barcodes
  rcases hgl : gabLoop 1 bcs ⟨[], [], []⟩ with ⟨st, b⟩
  have hb : b = false := by
    have := gabLoop_one_not_raised bcs ⟨[], [], []⟩
    rw [hgl] at this
    exact this
  subst hb
  rfl

/-! ### Blacklist symmetry and disjointness -/

/-- A pair list closed under swapping its members. -/
def SymPairs (l : List (BSeq × BSeq)) : Prop := ∀ p ∈ l, (p.2, p.1) ∈ l

/-- Closure of every blacklist pair set under swapping. -/
def SymBL (bl : List (BSeq × List (BSeq × BSeq))) : Prop :=
  ∀ e ∈ bl, SymPairs e.2

theorem mem_addPair {l : List (BSeq × BSeq)} {p x : BSeq × BSeq} :
    x ∈ addPair l p ↔ x ∈ l ∨ x = p := by
  unfold addPair
  split
  · rename_i hp
    constructor
    · exact Or.inl
    · rintro (h | rfl)
      · exact h
      · exact hp
  · simp [List.mem_append]

theorem symPairs_addPair_both {l : List (BSeq × BSeq)} {a b : BSeq}
    (h : SymPairs l) : SymPairs (addPair (addPair l (a, b)) (b, a)) := by
  intro p hp
  rw [mem_addPair, mem_addPair] at hp ⊢
  rcases hp with (hp | rfl) | rfl
  · exact Or.inl (Or.inl (h _ hp))
  · exact Or.inr rfl
  · exact Or.inl (Or.inr rfl)

theorem symPairs_getD {bl : List (BSeq × List (BSeq × BSeq))} {k : BSeq}
    (h : SymBL bl) : SymPairs ((dget bl k).getD []) := by
  cases hv : dget bl k with
  | none => intro p hp; simp at hp
  | some v => exact h _ (dget_mem hv)

theorem symBL_processPattern {bc : BSeq} {st : BCState} {pattern : BSeq}
    (h : SymBL st.blacklist) : SymBL (processPattern bc st pattern).blacklist := by
  unfold processPattern
  split
  · rename_i prev hprev
    intro e he
    rcases mem_dset he with h' | rfl
    · exact h _ h'
    · exact symPairs_addPair_both (symPairs_getD h)
  · exact h

theorem symBL_foldl {pats : List BSeq} {bc : BSeq} {st : BCState}
    (h : SymBL st.blacklist) :
    SymBL (pats.foldl (processPattern bc) st).blacklist := by
  induction pats generalizing st with
  | nil => exact h
  | cons p ps ih => exact ih (symBL_processPattern h)

theorem symBL_gabLoop {mm : Nat} {bcs : List BSeq} {st : BCState}
    (h : SymBL st.blacklist) : SymBL (gabLoop mm bcs st).1.blacklist := by
  induction bcs generalizing st with
  | nil => exact h
  | cons bc rest ih =>
    rw [gabLoop]
    split
    · exact symBL_foldl h
    · exact ih (symBL_foldl h)

theorem keys_foldl_ddel_subset {α β γ : Type} [DecidableEq α]
    {bl : List (α × γ)} {d : List (α × β)} {k : α}
    (h : k ∈ dkeys (bl.foldl (fun f kv => ddel f kv.1) d)) : k ∈ dkeys d := by
  induction bl generalizing d with
  | nil => exact h
  | cons kv rest ih => exact keys_ddel_subset (ih h)

theorem not_mem_keys_foldl_ddel {α β γ : Type} [DecidableEq α]
    {bl : List (α × γ)} {d : List (α × β)} {k : α}
    (h : k ∈ bl.map (·.1)) :
    k ∉ dkeys (bl.foldl (fun f kv => ddel f kv.1) d) := by
  induction bl generalizing d with
  | nil => simp at h
  | cons kv rest ih =>
    rcases List.mem_cons.mp h with h' | h'
    · subst h'
      intro hmem
      exact not_mem_keys_ddel (keys_foldl_ddel_subset hmem)
    · exact ih h'

/-! ### C6 -/

/-- C6: with budget 1, the final pattern map and the blacklist have
disjoint key sets, and the pair set of every blacklist entry is closed under
swapping a pair's two barcodes (hence contains `(a, b)` iff `(b, a)`). -/
theorem C6_theorem (bcs : List BSeq) (hne : ∀ b ∈ bcs, b ≠ []) :
    (∀ p ∈ dkeys (get_all_barcodes bcs 1).blacklist,
        p ∉ dkeys (get_all_barcodes bcs 1).found) ∧
    (∀ e ∈ (get_all_barcodes bcs 1).blacklist, ∀ pr ∈ e.2, (pr.2, pr.1) ∈ e.2) := by
  unfold get_all_barcodes
  rcases hgl : gabLoop 1 bcs ⟨[], [], []⟩ with ⟨st, b⟩
  have hb : b = false := by
    have := gabLoop_one_not_raised bcs ⟨[], [], []⟩
    rw [hgl] at this
    exact this
  subst hb
  constructor
  · intro p hp
    exact not_mem_keys_foldl_ddel hp
  · intro e he
    have hsym : SymBL st.blacklist := by
      have h2 : SymBL (gabLoop 1 bcs ⟨[], [], []⟩).1.blacklist :=
        symBL_gabLoop (fun e he => by simp at he)
      rw [hgl] at h2
      exact h2
    exact hsym e he

/-- C6, witness at the colliding pair `AAAA`, `AAAT`. -/
theorem C6_witness :
    (∀ b ∈ [toSeq "AAAA", toSeq "AAAT"], b ≠ []) ∧
    ((∀ p ∈ dkeys (get_all_barcodes [toSeq "AAAA", toSeq "AAAT"] 1).blacklist,
        p ∉ dkeys (get_all_barcodes [toSeq "AAAA", toSeq "AAAT"] 1).found) ∧
     (∀ e ∈ (get_all_barcodes [toSeq "AAAA", toSeq "AAAT"] 1).blacklist,
        ∀ pr ∈ e.2, (pr.2, pr.1) ∈ e.2)) :=
  ⟨by decide, C6_theorem [toSeq "AAAA", toSeq "AAAT"] (by decide)⟩

/-! ### C5 -/

theorem extractL_append_middle (pre P suf : BSeq) :
    extractL (pre ++ P ++ suf) pre.length (pre.length + P.length) = P := by
  unfold extractL
  rw [List.append_assoc, List.take_append_eq_append_take]
  have h1 : List.take (pre.length + P.length) pre = pre :=
    List.take_of_length_le (Nat.le_add_right _ _)
  have h2 : pre.length + P.length - pre.length = P.length := by omega
  rw [h1, h2, List.take_append_eq_append_take, List.take_length]
  have h3 : P.length - P.length = 0 := Nat.sub_self _
  rw [h3, List.take_zero, List.append_nil, List.drop_left]

/-- C5: every pattern `P` in the final map, occurring as an exact
contiguous substring of a read at position `i`, is reported by the scan as
the triple `(i, i + len P, v)` where `v` is the entry of the map at `P`. -/
theorem C5_theorem (bcs : List BSeq) (P v read pre suf : BSeq) (i : Nat)
    (hne : ∀ b ∈ bcs, b ≠ [])
    (hkey : dget (get_all_barcodes bcs 1).found P = some v)
    (hread : read = pre ++ P ++ suf) (hi : i = pre.length) :
    (i, i + P.length, v) ∈ searchBarcodePats (get_all_barcodes bcs 1).found read := by
  subst hread hi
  have hfound : (P, v) ∈ (get_all_barcodes bcs 1).found := dget_mem hkey
  have hspec := mem_found_spec hfound
  have hlen : P.length = v.length := hspec.2
  have hvne : v ≠ [] := hne v hspec.1
  have hPpos : 0 < P.length := by
    rw [hlen]
    exact List.length_pos.mpr hvne
  have hread_len : (pre ++ P ++ suf).length =
      pre.length + P.length + suf.length := by
    simp
    omega
  have hePlus : pre.length + P.length - 1 + 1 = pre.length + P.length := by omega
  have hmatch : matchEndsAt (pre ++ P ++ suf) P (pre.length + P.length - 1) = true := by
    unfold matchEndsAt
    rw [hePlus]
    have h1 : P.isEmpty = false := by
      cases P
      · simp at hPpos
      · rfl
    have h2 : pre.length + P.length - P.length = pre.length := by omega
    rw [h1, h2, extractL_append_middle]
    simp [Nat.le_add_left]
  have hiter : (pre.length + P.length - 1, v) ∈
      automatonIter (get_all_barcodes bcs 1).found (pre ++ P ++ suf) := by
    unfold automatonIter
    rw [List.mem_flatMap]
    refine ⟨pre.length + P.length - 1, List.mem_range.mpr (by rw [hread_len]; omega), ?_⟩
    rw [List.mem_map]
    exact ⟨(P, v), List.mem_filter.mpr ⟨hfound, hmatch⟩, rfl⟩
  unfold searchBarcodePats
  rw [List.mem_map]
  refine ⟨(pre.length + P.length - 1, v), hiter, ?_⟩
  simp only [hePlus]
  rw [← hlen]
  have h4 : pre.length + P.length - P.length = pre.length := by omega
  rw [h4]

/-- C5, witness: the mismatch variant `TAAA` of barcode `AAAA` occurring
at position 2 of `GGTAAAC` is reported as `(2, 6, AAAA)`. -/
theorem C5_witness :
    (∀ b ∈ [toSeq "AAAA"], b ≠ []) ∧
    dget (get_all_barcodes [toSeq "AAAA"] 1).found (toSeq "TAAA") =
      some (toSeq "AAAA") ∧
    toSeq "GGTAAAC" = toSeq "GG" ++ toSeq "TAAA" ++ toSeq "C" ∧
    (2, 2 + (toSeq "TAAA").length, toSeq "AAAA") ∈
      searchBarcodePats (get_all_barcodes [toSeq "AAAA"] 1).found
        (toSeq "GGTAAAC") :=
  ⟨by decide, by decide, by decide,
    C5_theorem [toSeq "AAAA"] (toSeq "TAAA") (toSeq "AAAA") (toSeq "GGTAAAC")
      (toSeq "GG") (toSeq "C") 2 (by decide) (by decide) (by decide) (by decide)⟩

/-! ### Shape of scan results and of `tag_read` -/

theorem mem_searchBarcodePats {pats : List (BSeq × BSeq)} {read : BSeq}
    {m : Nat × Nat × BSeq} (h : m ∈ searchBarcodePats pats read) :
    m.1 ≤ m.2.1 ∧ 1 ≤ m.2.1 ∧ ∃ p, (p, m.2.2) ∈ pats := by
  unfold searchBarcodePats at h
  rw [List.mem_map] at h
  obtain ⟨⟨e, v⟩, hev, rfl⟩ := h
  refine ⟨Nat.sub_le _ _, Nat.le_add_left _ _, ?_⟩
  unfold automatonIter at hev
  rw [List.mem_flatMap] at hev
  obtain ⟨e', _, hmem⟩ := hev
  rw [List.mem_map] at hmem
  obtain ⟨pv, hpv, heq⟩ := hmem
  obtain ⟨rfl, rfl⟩ := Prod.mk.injEq _ _ _ _ ▸ heq
  exact ⟨pv.1, List.mem_of_mem_filter hpv⟩

theorem mem_ordNub_foldl {α : Type} [DecidableEq α] :
    ∀ {l acc : List α} {x : α},
      x ∈ l.foldl (fun acc m => if m ∈ acc then acc else acc ++ [m]) acc →
      x ∈ acc ∨ x ∈ l := by
  intro l
  induction l with
  | nil => intro acc x h; exact Or.inl h
  | cons a l ih =>
    intro acc x h
    rw [List.foldl_cons] at h
    rcases ih h with h' | h'
    · split at h'
      · exact Or.inl h'
      · rcases List.mem_append.mp h' with h'' | h''
        · exact Or.inl h''
        · simp only [List.mem_singleton] at h''
          exact Or.inr (h'' ▸ List.mem_cons_self _ _)
    · exact Or.inr (List.mem_cons_of_mem _ h')

theorem mem_of_mem_ordNub {α : Type} [DecidableEq α] {l : List α} {x : α}
    (h : x ∈ ordNub l) : x ∈ l := by
  rcases mem_ordNub_foldl h with h' | h'
  · simp at h'
  · exact h'

/-- Any match heading the deduplicated scan list has `start ≤ end`,
`end ≥ 1`, and carries a stored value of the automaton. -/
theorem head_match_shape {t : ReadTagger} {s : BSeq}
    {bs be : Nat} {bc : BSeq} {rest : List (Nat × Nat × BSeq)}
    (hm : ordNub (t.search_barcode s) = (bs, be, bc) :: rest) :
    bs ≤ be ∧ 1 ≤ be := by
  have hmem : (bs, be, bc) ∈ ordNub (t.search_barcode s) := by
    rw [hm]
    exact List.mem_cons_self _ _
  have := mem_searchBarcodePats (mem_of_mem_ordNub hmem)
  exact ⟨this.1, this.2.1⟩

theorem tag_read_nil {t : ReadTagger} {h : String} {s q : BSeq}
    (hm : ordNub (t.search_barcode s) = []) :
    tag_read t h s q =
      .ok ⟨h, q, t.len_primer, none, none, none, s, [], false⟩ := by
  unfold tag_read
  rw [hm]

theorem tag_read_cons {t : ReadTagger} {h : String} {s q : BSeq}
    {bs be : Nat} {bc : BSeq} {rest : List (Nat × Nat × BSeq)}
    (hm : ordNub (t.search_barcode s) = (bs, be, bc) :: rest) :
    tag_read t h s q = tagWithMatch t h s q bs be bc rest := by
  unfold tag_read
  rw [hm]

/-- Full case analysis of a successful `tag_read`. -/
theorem tag_read_ok_cases {t : ReadTagger} {h : String} {s q : BSeq}
    {r : TaggedRead} (hr : tag_read t h s q = .ok r) :
    (ordNub (t.search_barcode s) = [] ∧
      r = ⟨h, q, t.len_primer, none, none, none, s, [], false⟩) ∨
    (∃ bs be bc rest ids,
      ordNub (t.search_barcode s) = (bs, be, bc) :: rest ∧
      lookupIds t.bc_to_id rest = .ok ids ∧
      bs ≤ be ∧ 1 ≤ be ∧
      r = ⟨h, q, t.len_primer,
           if s.take bs = [] then none else some (s.take bs),
           dget t.bc_to_id bc,
           some (extractL s be (be + t.len_linker)),
           s.drop (be + t.len_linker),
           ordNub (ids.filter fun i => !(some i == dget t.bc_to_id bc)),
           decide (extractL s bs be ≠ bc)⟩) := by
  cases hm : ordNub (t.search_barcode s) with
  | nil =>
    rw [tag_read_nil hm] at hr
    exact Or.inl ⟨rfl, (Except.ok.inj hr).symm⟩
  | cons m rest =>
    obtain ⟨bs, be, bc⟩ := m
    rw [tag_read_cons hm] at hr
    unfold tagWithMatch at hr
    have hshape := head_match_shape hm
    have hbe0 : ¬ be = 0 := by omega
    right
    cases hl : lookupIds t.bc_to_id rest with
    | error e =>
      rw [hl] at hr
      simp [Except.bind] at hr
    | ok ids =>
      rw [hl] at hr
      refine ⟨bs, be, bc, rest, ids, rfl, hl, hshape.1, hshape.2, ?_⟩
      have hr' := (Except.ok.inj hr).symm
      rw [hr']
      simp only [if_neg hbe0]

/-! ### C4, amended -/

/-- C4, amended: when no barcode is found the amplicon is the entire
read (empty only for an empty read); when the primary match ends at `be`
the amplicon is exactly the read past the linker window `be + len_linker`,
and it is empty precisely when the read ends at or before that cut —
contrary to the claim that it is never empty. -/
theorem C4_theorem (t : ReadTagger) (h : String) (s q : BSeq) (r : TaggedRead)
    (hr : tag_read t h s q = .ok r) :
    match ordNub (t.search_barcode s) with
    | [] => r.amplicon = s ∧ (r.amplicon = [] ↔ s = [])
    | (_, be, _) :: _ =>
        r.amplicon = s.drop (be + t.len_linker) ∧
        (r.amplicon = [] ↔ s.length ≤ be + t.len_linker) := by
  rcases tag_read_ok_cases hr with ⟨hm, rfl⟩ |
    ⟨bs, be, bc, rest, ids, hm, hl, hbs, hbe, rfl⟩
  · rw [hm]
    exact ⟨rfl, Iff.rfl⟩
  · rw [hm]
    exact ⟨rfl, List.drop_eq_nil_iff⟩

/-- The `TaggedRead` produced for the read `AAAA` by the Scenario 3 tagger. -/
def c4res : TaggedRead :=
  ⟨"r", c4qual, 4, none, some "BC1", some [], [], [], false⟩

/-- C4, witness at the Scenario 3 tagger and the read `AAAA`: the match
ends at 4, the linker window ends at 6, and the amplicon is the (empty)
rest of the 4-character read. -/
theorem C4_witness :
    tag_read c1tagger "r" c4read c4qual = .ok c4res ∧
    (match ordNub (c1tagger.search_barcode c4read) with
     | [] => c4res.amplicon = c4read ∧ (c4res.amplicon = [] ↔ c4read = [])
     | (_, be, _) :: _ =>
         c4res.amplicon = c4read.drop (be + c1tagger.len_linker) ∧
         (c4res.amplicon = [] ↔ c4read.length ≤ be + c1tagger.len_linker)) :=
  ⟨rfl, C4_theorem c1tagger "r" c4read c4qual c4res rfl⟩

/-! ### C9 -/

theorem take_extractL {s : BSeq} {a b : Nat} (hab : a ≤ b) :
    s.take a ++ extractL s a b = s.take b := by
  unfold extractL
  conv_rhs => rw [← List.take_append_drop a (s.take b)]
  rw [List.take_take, inf_eq_left.mpr hab]

theorem extractL_reconstruction {s : BSeq} {a b c : Nat}
    (hab : a ≤ b) (hbc : b ≤ c) :
    s.take a ++ extractL s a b ++ extractL s b c ++ s.drop c = s := by
  rw [take_extractL hab, take_extractL hbc, List.take_append_drop]

/-- C9: the segments of a tagged read reconstruct the input sequence.
When the deduplicated scan finds a primary match `(bs, be, _)`, the junk
(or the empty string), the matched region `seq[bs:be]`, the linker and the
amplicon concatenate back to the read; with no match the amplicon is the
whole read. -/
theorem C9_theorem (t : ReadTagger) (h : String) (s q : BSeq) (r : TaggedRead)
    (hr : tag_read t h s q = .ok r) :
    match ordNub (t.search_barcode s) with
    | [] => r.amplicon = s
    | (bs, be, _) :: _ =>
        r.junk.getD [] ++ extractL s bs be ++ r.linker.getD [] ++ r.amplicon = s := by
  rcases tag_read_ok_cases hr with ⟨hm, rfl⟩ |
    ⟨bs, be, bc, rest, ids, hm, hl, hbs, hbe, rfl⟩
  · rw [hm]
  · rw [hm]
    show (if s.take bs = [] then none else some (s.take bs)).getD [] ++
        extractL s bs be ++ extractL s be (be + t.len_linker) ++
        s.drop (be + t.len_linker) = s
    have hjunk : (if s.take bs = [] then none
        else some (s.take bs)).getD ([] : BSeq) = s.take bs := by
      split
      · rename_i he
        rw [Option.getD_none, he]
      · rw [Option.getD_some]
    rw [hjunk]
    exact extractL_reconstruction hbs (Nat.le_add_right _ _)

/-- C9, witness at the Scenario 3 tagger and read. -/
theorem C9_witness :
    tag_read c1tagger "r1" c1read c1qual = .ok c1res ∧
    (match ordNub (c1tagger.search_barcode c1read) with
     | [] => c1res.amplicon = c1read
     | (bs, be, _) :: _ =>
         c1res.junk.getD [] ++ extractL c1read bs be ++
           c1res.linker.getD [] ++ c1res.amplicon = c1read) :=
  ⟨rfl, C9_theorem c1tagger "r1" c1read c1qual c1res rfl⟩

/-! ### The statistics dict through `updateStats` -/

/-- The statistics dict shape maintained by every tagger: the six
constructor keys in order, with arbitrary counts. -/
def statsShape (a b c d e f : Nat) : List (String × Nat) :=
  [("n_only_primer", a), ("n_multiple_bcs", b), ("n_no_barcode", c),
   ("n_regular", d), ("n_barcode_mismatch", e), ("n_junk", f)]

theorem initStats_eq_shape : initStats = statsShape 0 0 0 0 0 0 := rfl

theorem incrStat_shape_only_primer (a b c d e f : Nat) :
    incrStat (statsShape a b c d e f) "n_only_primer" =
      .ok (statsShape (a + 1) b c d e f) := rfl

theorem incrStat_shape_multiple (a b c d e f : Nat) :
    incrStat (statsShape a b c d e f) "n_multiple_bcs" =
      .ok (statsShape a (b + 1) c d e f) := rfl

theorem incrStat_shape_no_barcode (a b c d e f : Nat) :
    incrStat (statsShape a b c d e f) "n_no_barcode" =
      .ok (statsShape a b (c + 1) d e f) := rfl

theorem incrStat_shape_regular (a b c d e f : Nat) :
    incrStat (statsShape a b c d e f) "n_regular" =
      .ok (statsShape a b c (d + 1) e f) := rfl

theorem incrStat_shape_mismatch (a b c d e f : Nat) :
    incrStat (statsShape a b c d e f) "n_barcode_mismatch" =
      .ok (statsShape a b c d (e + 1) f) := rfl

theorem incrStat_shape_junk (a b c d e f : Nat) :
    incrStat (statsShape a b c d e f) "n_junk" =
      .ok (statsShape a b c d e (f + 1)) := rfl

/-- One pass of the statistics loop adds 1 to each counter whose
predicate holds of the tagged read. -/
theorem updateStats_shape (a b c d e f : Nat) (r : TaggedRead) :
    updateStats (statsShape a b c d e f) r =
      .ok (statsShape (a + r.is_just_primer.toNat)
        (b + r.has_multiple_barcodes.toNat)
        (c + (!truthyStr r.barcode).toNat)
        (d + r.is_regular.toNat)
        (e + r.barcode_mismatch.toNat)
        (f + (truthyOptSeq r.junk).toNat)) := by
  unfold updateStats PREDS
  simp only [List.foldl_cons, List.foldl_nil]
  cases h1 : r.is_just_primer <;> cases h2 : r.has_multiple_barcodes <;>
    cases h3 : truthyStr r.barcode <;> cases h4 : r.barcode_mismatch <;>
    cases h5 : truthyOptSeq r.junk <;> cases h6 : r.is_regular <;>
    simp [h1, h2, h3, h4, h5, h6, Except.bind, incrStat_shape_only_primer,
      incrStat_shape_multiple, incrStat_shape_no_barcode,
      incrStat_shape_regular, incrStat_shape_mismatch, incrStat_shape_junk]

theorem statSum_shape (a b c d e f : Nat) :
    statSum (statsShape a b c d e f) = c + a + d := rfl

/-! ### Totality of the per-read hot path (C8) -/

theorem lookupIds_total {d : List (BSeq × String)} :
    ∀ {ms : List (Nat × Nat × BSeq)},
      (∀ m ∈ ms, (dget d m.2.2).isSome = true) →
      ∃ ids, lookupIds d ms = .ok ids := by
  intro ms
  induction ms with
  | nil => exact fun _ => ⟨[], rfl⟩
  | cons m rest ih =>
    intro hall
    have hm := hall m (List.mem_cons_self _ _)
    cases hid : dget d m.2.2 with
    | none =>
      rw [hid] at hm
      simp at hm
    | some i =>
      obtain ⟨ids, hids⟩ := ih fun m' hm' => hall m' (List.mem_cons_of_mem _ hm')
      refine ⟨i :: ids, ?_⟩
      unfold lookupIds
      rw [hid, hids]
      rfl

theorem tag_read_total {t : ReadTagger}
    (hval : ∀ pv ∈ t.patterns, pv.2 ∈ dkeys t.bc_to_id)
    (h : String) (s q : BSeq) : ∃ r, tag_read t h s q = .ok r := by
  cases hm : ordNub (t.search_barcode s) with
  | nil => exact ⟨_, tag_read_nil hm⟩
  | cons m rest =>
    obtain ⟨bs, be, bc⟩ := m
    have hall : ∀ m' ∈ rest, (dget t.bc_to_id m'.2.2).isSome = true := by
      intro m' hm'
      have hmem : m' ∈ ordNub (t.search_barcode s) := by
        rw [hm]
        exact List.mem_cons_of_mem _ hm'
      obtain ⟨p, hp⟩ := (mem_searchBarcodePats (mem_of_mem_ordNub hmem)).2.2
      exact dget_isSome_of_mem_keys (hval _ hp)
    obtain ⟨ids, hids⟩ := lookupIds_total hall
    rw [tag_read_cons hm]
    unfold tagWithMatch
    rw [hids]
    exact ⟨_, rfl⟩

/-- C8: a tagger correctly constructed with mismatch budget 1 never
raises in the per-read hot path: construction itself does not raise,
every barcode value the matcher yields is a key of `bc_to_id`, and the
statistics update finds all its keys, so `tag_read` (with statistics)
returns a `TaggedRead`. -/
theorem C8_theorem (bc_to_id : List (BSeq × String)) (ll lp : Nat)
    (h : String) (s q : BSeq)
    (hne : ∀ b ∈ dkeys bc_to_id, b ≠ []) :
    (mkReadTagger bc_to_id ll lp 1).raised = false ∧
    ∃ r st', tagReadWithStats (mkReadTagger bc_to_id ll lp 1) initStats h s q =
      .ok (r, st') := by
  constructor
  · exact get_all_barcodes_one_not_raised _
  · have hval : ∀ pv ∈ (mkReadTagger bc_to_id ll lp 1).patterns,
        pv.2 ∈ dkeys bc_to_id := fun pv hpv => (mem_found_spec hpv).1
    obtain ⟨r, hr⟩ := tag_read_total hval h s q
    unfold tagReadWithStats
    rw [hr]
    show ∃ r' st',
      (updateStats initStats r).map (fun st' => (r, st')) = .ok (r', st')
    rw [initStats_eq_shape, updateStats_shape]
    exact ⟨_, _, rfl⟩

/-- C8, witness at the Scenario 3 configuration. -/
theorem C8_witness :
    (∀ b ∈ dkeys ([(toSeq "AAAA", "BC1")] : List (BSeq × String)), b ≠ []) ∧
    ((mkReadTagger [(toSeq "AAAA", "BC1")] 2 4 1).raised = false ∧
     ∃ r st', tagReadWithStats (mkReadTagger [(toSeq "AAAA", "BC1")] 2 4 1)
       initStats "r1" c1read c1qual = .ok (r, st')) :=
  ⟨by decide, C8_theorem [(toSeq "AAAA", "BC1")] 2 4 "r1" c1read c1qual (by decide)⟩

/-! ### C10 -/

/-- Every read tagged by a tagger whose identifiers are non-empty strings
satisfies exactly one of no-barcode, just-primer, is-regular. -/
theorem preds_exactly_one {t : ReadTagger} {h : String} {s q : BSeq}
    {r : TaggedRead} (hids : ∀ kv ∈ t.bc_to_id, kv.2 ≠ "")
    (hr : tag_read t h s q = .ok r) :
    (!truthyStr r.barcode).toNat + r.is_just_primer.toNat +
      r.is_regular.toNat = 1 := by
  rcases tag_read_ok_cases hr with ⟨_, rfl⟩ |
    ⟨bs, be, bc, rest, ids, hm, hl, hbs, hbe, rfl⟩
  · rfl
  · cases hid : dget t.bc_to_id bc with
    | none =>
      simp [TaggedRead.is_just_primer, TaggedRead.is_regular, truthyStr, hid]
    | some i =>
      have hine : i ≠ "" := hids _ (dget_mem hid)
      have htr : truthyStr (some i) = true := by
        simp [truthyStr, hine]
      simp only [TaggedRead.is_just_primer, TaggedRead.is_regular, hid, htr,
        Option.isSome_some, Bool.true_and, Bool.not_true, Bool.toNat_false]
      cases hX : decide
          ((List.drop (be + t.len_linker) s).length ≤ t.len_primer) <;>
        simp [hX]

/-- Running reads on a shaped statistics dict: the three counters of
`statSum` grow by exactly the number of reads. -/
theorem runReads_statSum {t : ReadTagger}
    (hids : ∀ kv ∈ t.bc_to_id, kv.2 ≠ "") :
    ∀ (reads : List (String × BSeq × BSeq)) (a b c d e f : Nat)
      (st : List (String × Nat)),
      runReads t reads (statsShape a b c d e f) = .ok st →
      statSum st = (c + a + d) + reads.length := by
  intro reads
  induction reads with
  | nil =>
    intro a b c d e f st hrun
    have hst : st = statsShape a b c d e f := (Except.ok.inj hrun).symm
    rw [hst, statSum_shape, List.length_nil, Nat.add_zero]
  | cons hd rest ih =>
    obtain ⟨h, s, q⟩ := hd
    intro a b c d e f st hrun
    rw [runReads] at hrun
    cases hr : tag_read t h s q with
    | error e' =>
      unfold tagReadWithStats at hrun
      rw [hr] at hrun
      simp [Except.bind] at hrun
    | ok r =>
      unfold tagReadWithStats at hrun
      rw [hr] at hrun
      rw [show ((Except.ok r : Except String TaggedRead).bind fun r =>
          (updateStats (statsShape a b c d e f) r).map fun st' => (r, st')) =
          ((updateStats (statsShape a b c d e f) r).map fun st' => (r, st'))
          from rfl] at hrun
      rw [updateStats_shape] at hrun
      rw [show ((Except.ok (statsShape (a + r.is_just_primer.toNat)
            (b + r.has_multiple_barcodes.toNat)
            (c + (!truthyStr r.barcode).toNat)
            (d + r.is_regular.toNat)
            (e + r.barcode_mismatch.toNat)
            (f + (truthyOptSeq r.junk).toNat)) :
              Except String (List (String × Nat))).map fun st' => (r, st')) =
          .ok (r, statsShape (a + r.is_just_primer.toNat)
            (b + r.has_multiple_barcodes.toNat)
            (c + (!truthyStr r.barcode).toNat)
            (d + r.is_regular.toNat)
            (e + r.barcode_mismatch.toNat)
            (f + (truthyOptSeq r.junk).toNat)) from rfl] at hrun
      have hsum := ih _ _ _ _ _ _ _ hrun
      have hone := preds_exactly_one hids hr
      rw [hsum, List.length_cons]
      omega

/-- C10, amended: for a tagger whose barcode identifiers are all
non-empty strings, with statistics enabled, after any finite sequence of
`tag_read` calls the counters satisfy
`n_no_barcode + n_only_primer + n_regular = number of reads tagged`;
an empty-string identifier is falsy in the predicates and breaks the
pairwise exclusivity (a read can count as both no-barcode and
just-primer). -/
theorem C10_theorem (bc_to_id : List (BSeq × String)) (ll lp : Nat)
    (hids : ∀ kv ∈ bc_to_id, kv.2 ≠ "")
    (reads : List (String × BSeq × BSeq)) (st : List (String × Nat))
    (hrun : runReads (mkReadTagger bc_to_id ll lp 1) reads initStats = .ok st) :
    statSum st = reads.length := by
  have h := runReads_statSum (t := mkReadTagger bc_to_id ll lp 1) hids reads
    0 0 0 0 0 0 st (initStats_eq_shape ▸ hrun)
  simpa using h

/-- C10, witness: the Scenario 3 tagger over one read; the read is
regular, so the three counters sum to 1. -/
theorem C10_witness :
    (∀ kv ∈ ([(toSeq "AAAA", "BC1")] : List (BSeq × String)), kv.2 ≠ "") ∧
    runReads (mkReadTagger [(toSeq "AAAA", "BC1")] 2 4 1)
      [("r1", c1read, c1qual)] initStats = .ok (statsShape 0 0 0 1 1 1) ∧
    statSum (statsShape 0 0 0 1 1 1) = [("r1", c1read, c1qual)].length :=
  ⟨by decide, rfl,
    C10_theorem [(toSeq "AAAA", "BC1")] 2 4 (by decide)
      [("r1", c1read, c1qual)] (statsShape 0 0 0 1 1 1) rfl⟩

end BartSeq
